import Mathlib

/-!
Shallow embedding of the AI digital-human server (src/app.py, src/phi.py,
src/vision.py).  Python strings are modelled as lists of characters;
external collaborators (the Ollama inference service, the Google translation
service, the camera) are modelled as oracle function parameters: an oracle
returning `none` models a raised exception or an unusable response shape.
-/

/-- Python strings, modelled as lists of characters. -/
abbrev Str := List Char

/-- ASCII whitespace as removed by Python str.strip(). -/
def isWS (c : Char) : Bool :=
  c = ' ' || c = '\t' || c = '\n' || c = '\r' || c = '\x0b' || c = '\x0c'

/-- Python str.strip(): remove leading and trailing whitespace. -/
def pyStrip (s : Str) : Str :=
  ((s.dropWhile isWS).reverse.dropWhile isWS).reverse

/-- Python str.lower(), restricted to the ASCII case mapping (all keyword
sets in the source are lower-case ASCII or caseless Indic script). -/
def pyLower (s : Str) : Str := s.map Char.toLower

/-- Does w occur at the start of t? -/
def pyStartsWith : Str → Str → Bool
  | [], _ => true
  | _ :: _, [] => false
  | a :: as, b :: bs => a = b && pyStartsWith as bs

/-- Python's substring test, the expression w in t. -/
def pyIn (w : Str) : Str → Bool
  | [] => w.isEmpty
  | c :: rest => pyStartsWith w (c :: rest) || pyIn w rest

/-- True when the two-character pattern a,b occurs contiguously in the word. -/
def hasPair (a b : Char) : Str → Bool
  | x :: y :: rest => (x = a && y = b) || hasPair a b (y :: rest)
  | _ => false

/-- Python reply.replace(danda-space, dot-space): the sentence-punctuation
normalisation step of phi.py line 110 (leftmost, non-overlapping). -/
def replDS : Str → Str
  | '।' :: ' ' :: rest => '.' :: ' ' :: replDS rest
  | c :: rest => c :: replDS rest
  | [] => []

/-- Python s.split(dot-space): leftmost, non-overlapping split on the
two-character separator dot-space. -/
def splitDS : Str → List Str
  | '.' :: ' ' :: rest => [] :: splitDS rest
  | c :: rest =>
    match splitDS rest with
    | [] => [[c]]
    | s :: ss => (c :: s) :: ss
  | [] => [[]]

/-- Sentence segmentation used by ask_phi (phi.py line 110): replace
danda-space by dot-space, split on dot-space, strip each piece and keep the
nonempty ones. -/
def sentencesOf (reply : Str) : List Str :=
  ((splitDS (replDS reply)).map pyStrip).filter (fun s => !s.isEmpty)

/-- Two-sentence cap applied to successful replies (phi.py lines 109-112):
when more than two sentences remain, rejoin the first two with dot-space and
append a final dot. -/
def capTwoSentences (reply : Str) : Str :=
  let sentences := sentencesOf reply
  if sentences.length > 2 then
    List.intercalate ('.' :: ' ' :: []) (sentences.take 2) ++ ['.']
  else reply

namespace Phi

/-- Happy keywords of phi.py detect_emotion_from_text. -/
def happyWords : List Str :=
  ["thank".data, "thanks".data, "great".data, "good".data, "happy".data,
   "glad".data, "nice".data, "धन्यवाद".data, "अच्छा".data, "நன்றி".data,
   "ధన్యవాదాలు".data, "ಧನ್ಯವಾದ".data, "നന്ദി".data]

/-- Sad keywords of phi.py detect_emotion_from_text. -/
def sadWords : List Str :=
  ["sorry".data, "sad".data, "unhappy".data, "खेद".data, "दुखी".data,
   "வருத்தம்".data, "క్షమించండి".data, "క్షమించి".data, "క్షమిక్కణం".data]

/-- Surprised keywords of phi.py detect_emotion_from_text. -/
def surprisedWords : List Str :=
  ["wow".data, "amazing".data, "surprise".data, "वाह".data, "ஆச்சரியம்".data,
   "ఆశ్చర్యం".data, "ಆಶ್ಚರ್ಯ".data, "ആശ്ചര്യം".data]

/-- Curious keywords of phi.py detect_emotion_from_text. -/
def curiousWords : List Str :=
  ["wonder".data, "curious".data, "think".data, "?".data, "जिज्ञासा".data,
   "ஆர்வம்".data, "ఉత్సుకత".data, "ಕುತೂಹಲ".data, "കൗതുകം".data]

/-- All keyword sets of phi.py detect_emotion_from_text together. -/
def allEmotionWords : List Str :=
  happyWords ++ sadWords ++ surprisedWords ++ curiousWords

/-- phi.py detect_emotion_from_text (lines 20-47): ordered keyword heuristic
over the lower-cased text; empty text short-circuits to neutral. -/
def detect_emotion_from_text (text : Str) : Str × ℚ :=
  if text.isEmpty then ("neutral".data, 0.5)
  else
    let t := pyLower text
    if happyWords.any (fun w => pyIn w t) then ("happy".data, 0.8)
    else if sadWords.any (fun w => pyIn w t) then ("sad".data, 0.7)
    else if surprisedWords.any (fun w => pyIn w t) then ("surprised".data, 0.75)
    else if curiousWords.any (fun w => pyIn w t) then ("curious".data, 0.7)
    else ("neutral".data, 0.5)

/-- phi.py MAX_RETRIES constant. -/
def MAX_RETRIES : Nat := 1

/-- Message returned by ask_phi when the ollama library is missing. -/
def unavailableMessage : Str :=
  "AI service is not available. Please contact administrator.".data

/-- Static per-language apology table of phi.py ask_phi (error_messages),
looked up with English as the default. -/
def error_messages (lang : Str) : Str :=
  if lang = "hi".data then "क्षमा करें, मुझे समस्या हो रही है। कृपया पुनः प्रयास करें।".data
  else if lang = "ta".data then "மன்னிக்கவும், எனக்கு சிக்கல் உள்ளது. மீண்டும் முயற்சிக்கவும்.".data
  else if lang = "te".data then "క్షమించండి, నాకు సమస్య ఉంది. మళ్లీ ప్రయత్నించండి.".data
  else if lang = "kn".data then "ಕ್ಷಮಿಸಿ, ನನಗೆ ಸಮಸ್ಯೆ ಇದೆ. ಮತ್ತೆ ಪ್ರಯತ್ನಿಸಿ.".data
  else if lang = "ml".data then "ക്ഷമിക്കണം, എനിക്ക് പ്രശ്നമുണ്ട്. വീണ്ടും ശ്രമിക്കുക.".data
  else "Sorry, I\x27m having trouble. Please try again.".data

/-- One attempt of ask_phi's try-block.  The oracle gives the extracted
message content of the ollama.chat call for a given message and attempt
index; none models a raised exception.  An empty reply after stripping
raises ValueError inside the try-block, hence also yields none.  A
successful reply is capped to two sentences (phi.py lines 92-112). -/
def phiAttempt (oracle : Str → Nat → Option Str) (message : Str) (attempt : Nat) :
    Option Str :=
  match oracle message attempt with
  | none => none
  | some raw =>
    let reply := pyStrip raw
    if reply.isEmpty then none else some (capTwoSentences reply)

/-- The retry loop of ask_phi (for attempt in range(MAX_RETRIES + 1)),
written with the number of retries still allowed as explicit fuel
(fuel = MAX_RETRIES - attempt in the source loop).  Returns the reply
together with the number of attempts made and the list of sleep durations
performed between attempts (time.sleep(1) before a retry). -/
def askPhiLoop (oracle : Str → Nat → Option Str) (message lang : Str) :
    Nat → Nat → Str × Nat × List ℚ
  | attempt, 0 =>
    match phiAttempt oracle message attempt with
    | some reply => (reply, attempt + 1, [])
    | none => (error_messages lang, attempt + 1, [])
  | attempt, f + 1 =>
    match phiAttempt oracle message attempt with
    | some reply => (reply, attempt + 1, [])
    | none =>
      let r := askPhiLoop oracle message lang (attempt + 1) f
      (r.1, r.2.1, (1 : ℚ) :: r.2.2)

/-- phi.py ask_phi (lines 49-139): availability guard followed by the retry
loop starting at attempt 0 with MAX_RETRIES retries allowed.  The first
component is the reply handed to the caller; the second and third record how
many inference attempts were made and which sleeps were performed. -/
def ask_phi (available : Bool) (oracle : Str → Nat → Option Str) (message lang : Str) :
    Str × Nat × List ℚ :=
  if available then askPhiLoop oracle message lang 0 MAX_RETRIES
  else (unavailableMessage, 0, [])

/-- phi.py translate_to_english: identity for English, otherwise an
ollama-backed call whose failure (or blank output) falls back to the
original text. -/
def translate_to_english (t2e : Str → Option Str) (text source_lang : Str) : Str :=
  if source_lang = "en".data then text
  else
    match t2e text with
    | none => text
    | some content =>
      let s := pyStrip content
      if s.isEmpty then text else s

/-- phi.py translate_from_english: identity for English, otherwise an
ollama-backed call whose failure (or blank output) falls back to the
original text. -/
def translate_from_english (tfe : Str → Str → Option Str) (text target_lang : Str) : Str :=
  if target_lang = "en".data then text
  else
    match tfe text target_lang with
    | none => text
    | some content =>
      let s := pyStrip content
      if s.isEmpty then text else s

/-- phi.py ask_phi_with_emotion (lines 189-219): inbound translation, English
inference, outbound translation, then the keyword emotion heuristic on the
reply it is about to return.  The outer try/except of the source is
unreachable here because every step of this model is total. -/
def ask_phi_with_emotion (available : Bool) (oracle : Str → Nat → Option Str)
    (t2e : Str → Option Str) (tfe : Str → Str → Option Str) (message lang : Str) :
    Str × Str × ℚ :=
  let english_msg := if lang ≠ "en".data then translate_to_english t2e message lang else message
  let reply0 := (ask_phi available oracle english_msg ("en".data)).1
  let reply := if lang ≠ "en".data then translate_from_english tfe reply0 lang else reply0
  let ei := detect_emotion_from_text reply
  (reply, ei.1, ei.2)

end Phi

/-- app.py LANGUAGE_MAP (lines 48-62). -/
def LANGUAGE_MAP : List (Str × Str) :=
  [("en-US".data, "en".data), ("en".data, "en".data),
   ("hi-IN".data, "hi".data), ("hi".data, "hi".data),
   ("ta-IN".data, "ta".data), ("ta".data, "ta".data),
   ("te-IN".data, "te".data), ("te".data, "te".data),
   ("kn-IN".data, "kn".data), ("kn".data, "kn".data),
   ("ml-IN".data, "ml".data), ("ml".data, "ml".data),
   ("auto".data, "auto".data)]

/-- Python dict.get(key, default) over an association list. -/
def dictGet (d : List (Str × Str)) (k dflt : Str) : Str :=
  match d.find? (fun p => p.1 == k) with
  | some p => p.2
  | none => dflt

/-- app.py translate_text (lines 64-94).  available models
TRANSLATOR_AVAILABLE; gt src tgt text models
GoogleTranslator(source=src, target=tgt).translate(text), with none for a
raised exception. -/
def translate_text (available : Bool) (gt : Str → Str → Str → Option Str)
    (text source_lang target_lang : Str) : Str :=
  if !available then text
  else if text.isEmpty || (pyStrip text).isEmpty then text
  else
    let src := dictGet LANGUAGE_MAP source_lang source_lang
    let tgt := dictGet LANGUAGE_MAP target_lang target_lang
    if src = tgt ∧ src ≠ "auto".data then text
    else
      match gt src tgt text with
      | some translated => translated
      | none => text

/-- One structured detection entry sent to the frontend by the vision
worker (app.py lines 411-418). -/
structure DetectionEntry where
  label : Str
  confidence : ℚ
  position : Str
deriving DecidableEq, Repr

/-- One cycle's result dict produced by vision_monitoring_worker (app.py
lines 388-434).  emotion_intensity is none for the error and clear results,
whose dicts carry no such key. -/
structure DetectionResult where
  status : Str
  timestamp : ℚ
  response : Str
  detections : List DetectionEntry
  objects_count : Nat
  emotion : Str
  emotion_intensity : Option ℚ
deriving DecidableEq, Repr

/-- app.py VisionSession (lines 34-44).  The worker thread handle is not
modelled; what the worker polls is the active flag. -/
structure VisionSession where
  session_id : Str
  language : Str
  active : Bool
  queue : List DetectionResult
  last_activity : ℚ
deriving DecidableEq, Repr

/-- VisionSession.stop (app.py lines 43-44): clear the active flag, which is
the cooperative stop signal observed by the session's worker. -/
def VisionSession.stop (s : VisionSession) : VisionSession :=
  { s with active := false }

/-- Capacity of a session's result queue (Queue(maxsize=5), app.py line 39). -/
def QUEUE_MAXSIZE : Nat := 5

/-- The vision_sessions dict of app.py (line 32), modelled as a partial map
from session identifiers to sessions. -/
def Registry := Str → Option VisionSession

/-- Enqueue step of vision_monitoring_worker (app.py lines 436-442): when
the bounded queue is full, drop the oldest entry with get_nowait, then put
the new result. -/
def visionQueuePut (q : List DetectionResult) (result : DetectionResult) :
    List DetectionResult :=
  if QUEUE_MAXSIZE ≤ q.length then q.tail ++ [result]
  else q ++ [result]

/-- Python lang_tag.split(hyphen)[0]: the text before the first hyphen. -/
def langPrefix (tag : Str) : Str := tag.takeWhile (fun c => c != '-')

/-- The expression data.get("session_id") or str(time.time()) of
api_vision_start: a missing or falsy (empty) identifier falls back to the
server-chosen one. -/
def resolveSessionId (session_id_opt : Option Str) (fallback_id : Str) : Str :=
  match session_id_opt with
  | some s => if s.isEmpty then fallback_id else s
  | none => fallback_id

/-- app.py api_vision_start (lines 307-334).  fallback_id stands for
str(time.time()), used when the request carries no truthy session_id; now
stands for the time.time() stored as last_activity.  Returns the resolved
identifier, the updated registry, and the deactivated old session (if one
was registered), i.e. the object whose worker observes the stop signal. -/
def api_vision_start (reg : Registry) (session_id_opt language_opt : Option Str)
    (fallback_id : Str) (now : ℚ) : Str × Registry × Option VisionSession :=
  let session_id := resolveSessionId session_id_opt fallback_id
  let language := language_opt.getD ("en-US".data)
  let stopped := (reg session_id).map VisionSession.stop
  let reg1 : Registry := fun k => if k = session_id then none else reg k
  let session : VisionSession :=
    { session_id := session_id, language := language, active := true,
      queue := [], last_activity := now }
  let reg2 : Registry := fun k => if k = session_id then some session else reg1 k
  (session_id, reg2, stopped)

/-- Outcomes of /api/vision/poll: the no_session marker dict, the no_data
marker dict, or a (possibly translated) dequeued detection result. -/
inductive PollOutcome where
  | noSession
  | noData
  | result (d : DetectionResult)
deriving DecidableEq, Repr

/-- app.py api_vision_poll (lines 336-361): unknown or falsy identifier
yields the no_session marker with HTTP 404; otherwise last_activity is
refreshed, and a non-empty queue is destructively read, translating the
response text when the session language is not English ('response' is
present in every worker-produced result).  Returns outcome, HTTP status and
the updated registry. -/
def api_vision_poll (available : Bool) (gt : Str → Str → Str → Option Str)
    (reg : Registry) (session_id_opt : Option Str) (now : ℚ) :
    PollOutcome × Nat × Registry :=
  match session_id_opt with
  | none => (PollOutcome.noSession, 404, reg)
  | some sid =>
    if sid.isEmpty then (PollOutcome.noSession, 404, reg)
    else
      match reg sid with
      | none => (PollOutcome.noSession, 404, reg)
      | some session =>
        match session.queue with
        | [] =>
          let session1 := { session with last_activity := now }
          (PollOutcome.noData, 200, fun k => if k = sid then some session1 else reg k)
        | detection :: rest =>
          let lang := langPrefix session.language
          let detection1 :=
            if lang ≠ "en".data then
              { detection with
                  response := translate_text available gt detection.response ("en".data) lang }
            else detection
          let session1 := { session with last_activity := now, queue := rest }
          (PollOutcome.result detection1, 200, fun k => if k = sid then some session1 else reg k)

/-- Wave keywords of app.py detect_gesture. -/
def gestureWave : List Str :=
  ["hi".data, "hello".data, "hey".data, "नमस्ते".data, "வணக்கம்".data, "నమస్కారం".data]

/-- Nod keywords of app.py detect_gesture. -/
def gestureYes : List Str :=
  ["yes".data, "yeah".data, "हां".data, "ஆம்".data, "అవును".data]

/-- Head-shake keywords of app.py detect_gesture. -/
def gestureNo : List Str :=
  ["no".data, "nope".data, "नहीं".data, "இல்லை".data, "కాదు".data]

/-- Gratitude keywords of app.py detect_gesture. -/
def gestureThanks : List Str :=
  ["thank".data, "thanks".data, "धन्यवाद".data, "நன்றி".data, "ధన్యవాదాలు".data]

/-- Thinking keywords of app.py detect_gesture. -/
def gestureQuestion : List Str :=
  ["?".data, "what".data, "how".data, "why".data, "क्या".data, "என்ன".data, "ఏమிటి".data]

/-- app.py detect_gesture (lines 466-480). -/
def detect_gesture (text : Str) : Str :=
  let lower := pyLower text
  if gestureWave.any (fun w => pyIn w lower) then "wave".data
  else if gestureYes.any (fun w => pyIn w lower) then "nod".data
  else if gestureNo.any (fun w => pyIn w lower) then "shake_head".data
  else if gestureThanks.any (fun w => pyIn w lower) then "gratitude".data
  else if gestureQuestion.any (fun w => pyIn w lower) then "thinking".data
  else "talk".data

/-- app.py phi_endpoint (lines 176-231), the body reached after JSON parsing
and the phi import succeed.  Returns ((response, emotion, emotion_intensity,
gesture), HTTP status); the 400 response for a missing message carries no
gesture key, modelled as the empty string. -/
def phi_endpoint (available : Bool) (gt : Str → Str → Str → Option Str)
    (oracle : Str → Nat → Option Str) (t2e : Str → Option Str)
    (tfe : Str → Str → Option Str) (user_input language : Str) :
    (Str × Str × ℚ × Str) × Nat :=
  let lang := if pyIn ("-".data) language then langPrefix language else language
  if user_input.isEmpty then
    (("Please provide a message.".data, "neutral".data, 0.5, ([] : Str)), 400)
  else
    let user_input1 :=
      if lang ≠ "en".data then translate_text available gt user_input lang ("en".data)
      else user_input
    let r := Phi.ask_phi_with_emotion available oracle t2e tfe user_input1 ("en".data)
    let reply :=
      if lang ≠ "en".data then translate_text available gt r.1 ("en".data) lang
      else r.1
    let gesture := detect_gesture user_input
    ((reply, r.2.1, r.2.2, gesture), 200)

namespace Vision

/-- Per-language phrase table entries of vision.py LANGUAGE_PHRASES. -/
structure PhraseTable where
  clear : Str
  see : Str
  ahead : Str
  left : Str
  right : Str
  close : Str
  far : Str
deriving DecidableEq, Repr

/-- English phrases (vision.py lines 39-47). -/
def enPhrases : PhraseTable :=
  { clear := "Path is clear.".data, see := "I see".data, ahead := "ahead".data,
    left := "on your left".data, right := "on your right".data,
    close := "very close".data, far := "far".data }

/-- Hindi phrases (vision.py lines 48-56). -/
def hiPhrases : PhraseTable :=
  { clear := "रास्ता साफ है।".data, see := "मुझे दिख रहा है".data, ahead := "सामने".data,
    left := "बाईं ओर".data, right := "दाईं ओर".data,
    close := "बहुत नजदीक".data, far := "दूर".data }

/-- Tamil phrases (vision.py lines 57-65). -/
def taPhrases : PhraseTable :=
  { clear := "பாதை தெளிவாக உள்ளது.".data, see := "நான் பார்க்கிறேன்".data, ahead := "முன்னால்".data,
    left := "இடதுபுறம்".data, right := "வலதுபுறம்".data,
    close := "மிக நெருக்கமாக".data, far := "தூரம்".data }

/-- Telugu phrases (vision.py lines 66-74). -/
def tePhrases : PhraseTable :=
  { clear := "దారి క్లియర్ గా ఉంది.".data, see := "నాకు కనిపిస్తోంది".data, ahead := "ముందు".data,
    left := "ఎడమవైపు".data, right := "కుడివైపు".data,
    close := "చాలా దగ్గరగా".data, far := "దూరంగా".data }

/-- Kannada phrases (vision.py lines 75-83). -/
def knPhrases : PhraseTable :=
  { clear := "ದಾರಿ ಸ್ಪಷ್ಟವಾಗಿದೆ.".data, see := "ನಾನು ನೋಡುತ್ತಿದ್ದೇನೆ".data, ahead := "ಮುಂದೆ".data,
    left := "ಎಡಕ್ಕೆ".data, right := "ಬಲಕ್ಕೆ".data,
    close := "ತುಂಬಾ ಹತ್ತಿರ".data, far := "ದೂರ".data }

/-- Malayalam phrases (vision.py lines 84-92). -/
def mlPhrases : PhraseTable :=
  { clear := "വഴി വ്യക്തമാണ്.".data, see := "ഞാൻ കാണുന്നു".data, ahead := "മുന്നിൽ".data,
    left := "ഇടതുവശത്ത്".data, right := "വലതുവശത്ത്".data,
    close := "വളരെ അടുത്ത്".data, far := "ദൂരെ".data }

/-- LANGUAGE_PHRASES.get(lang, LANGUAGE_PHRASES of English), as used
throughout vision.py. -/
def LANGUAGE_PHRASES_get (lang : Str) : PhraseTable :=
  if lang = "en".data then enPhrases
  else if lang = "hi".data then hiPhrases
  else if lang = "ta".data then taPhrases
  else if lang = "te".data then tePhrases
  else if lang = "kn".data then knPhrases
  else if lang = "ml".data then mlPhrases
  else enPhrases

/-- phrases.get(key, key): phrase-table lookup defaulting to the key. -/
def phraseGet (p : PhraseTable) (k : Str) : Str :=
  if k = "clear".data then p.clear
  else if k = "see".data then p.see
  else if k = "ahead".data then p.ahead
  else if k = "left".data then p.left
  else if k = "right".data then p.right
  else if k = "close".data then p.close
  else if k = "far".data then p.far
  else k

/-- Curious keywords of vision.py detect_emotion_from_text. -/
def curiousWords : List Str :=
  ["person".data, "people".data, "someone".data, "व्यक्ति".data, "நபர்".data,
   "వ్యక్తి".data, "ವ್ಯಕ್ತಿ".data, "വ്യക്തി".data]

/-- Happy keywords of vision.py detect_emotion_from_text. -/
def happyWords : List Str :=
  ["clear".data, "safe".data, "nothing".data, "साफ".data, "தெளிவு".data,
   "క్లియర్".data, "ಸ್ಪಷ್ಟ".data, "വ്യക്തം".data]

/-- Surprised keywords of vision.py detect_emotion_from_text. -/
def surprisedWords : List Str :=
  ["obstacle".data, "careful".data, "watch".data, "सावधान".data, "கவனம்".data,
   "జాగ్రత్త".data, "ಜಾಗರೂಕ".data, "ശ്രദ്ധ".data]

/-- vision.py detect_emotion_from_text (lines 129-140), the camera-variant
heuristic; the expression (text or "") maps a missing text to the empty
string before lower-casing. -/
def detect_emotion_from_text (text : Option Str) : Str × ℚ :=
  let t := pyLower (text.getD [])
  if curiousWords.any (fun w => pyIn w t) then ("curious".data, 0.75)
  else if happyWords.any (fun w => pyIn w t) then ("happy".data, 0.6)
  else if surprisedWords.any (fun w => pyIn w t) then ("surprised".data, 0.8)
  else ("neutral".data, 0.6)

/-- One detected object as built by vision.py detect_objects_from_camera
(lines 209-215). -/
structure Item where
  label : Str
  direction : Str
  confidence : ℚ
  distance : Str
  size_ratio : ℚ
deriving DecidableEq, Repr

/-- Label-priority table of create_natural_description (vision.py line 236),
with dict default 3. -/
def priorityOf (label : Str) : Nat :=
  if label = "person".data then 10
  else if label = "car".data then 8
  else if label = "truck".data then 8
  else if label = "dog".data then 7
  else if label = "chair".data then 6
  else 3

/-- The ordering of the Python call
sorted(items, key=(priority.get(label, 3), -size_ratio), reverse=True)
(vision.py line 237): a may precede b exactly when a's key
(priority, -size_ratio) is lexicographically at least b's, i.e. a has the
strictly higher priority, or equal priority and -size_ratio at least b's
(equivalently size_ratio at most b's). -/
def itemRank (a b : Item) : Prop :=
  priorityOf b.label < priorityOf a.label ∨
    (priorityOf a.label = priorityOf b.label ∧ a.size_ratio ≤ b.size_ratio)

instance : DecidableRel itemRank := fun a b =>
  inferInstanceAs (Decidable (priorityOf b.label < priorityOf a.label ∨
    (priorityOf a.label = priorityOf b.label ∧ a.size_ratio ≤ b.size_ratio)))

instance : IsTotal Item itemRank := by
  constructor
  intro a b
  unfold itemRank
  rcases Nat.lt_trichotomy (priorityOf a.label) (priorityOf b.label) with h | h | h
  · exact Or.inr (Or.inl h)
  · rcases le_total a.size_ratio b.size_ratio with hs | hs
    · exact Or.inl (Or.inr ⟨h, hs⟩)
    · exact Or.inr (Or.inr ⟨h.symm, hs⟩)
  · exact Or.inl (Or.inl h)

instance : IsTrans Item itemRank := by
  constructor
  intro a b c hab hbc
  unfold itemRank at hab hbc ⊢
  rcases hab with h1 | ⟨h1, h1s⟩
  · rcases hbc with h2 | ⟨h2, _⟩
    · exact Or.inl (h2.trans h1)
    · exact Or.inl (h2 ▸ h1)
  · rcases hbc with h2 | ⟨h2, h2s⟩
    · exact Or.inl (h1 ▸ h2)
    · exact Or.inr ⟨h1.trans h2, h1s.trans h2s⟩

/-- The sorted items of create_natural_description.  Python's sorted is the
unique stable sort, and List.insertionSort with the total preorder itemRank
is stable (ties keep original order), so it models the source's
sorted(..., reverse=True) call exactly. -/
def items_sorted (items : List Item) : List Item :=
  List.insertionSort itemRank items

/-- The dedup-and-describe loop of create_natural_description (vision.py
lines 239-251), carrying the seen-label set. -/
def dedupDescribe (phrases : PhraseTable) : List Item → List Str → List Str
  | [], _ => []
  | item :: rest, seen =>
    if item.label ∈ seen then dedupDescribe phrases rest seen
    else (item.label ++ [' '] ++ phraseGet phrases item.direction) ::
      dedupDescribe phrases rest (item.label :: seen)

/-- vision.py create_natural_description (lines 228-256). -/
def create_natural_description (items : List Item) (lang : Str) : Str :=
  if items.isEmpty then (LANGUAGE_PHRASES_get lang).clear
  else
    let phrases := LANGUAGE_PHRASES_get lang
    let descriptions := dedupDescribe phrases ((items_sorted items).take 2) []
    if descriptions.isEmpty then phrases.clear
    else phrases.see ++ [' '] ++ List.intercalate (',' :: ' ' :: []) descriptions ++ ['.']

end Vision

/-!
Helper lemmas about the Python string primitives, followed by one theorem
per specification claim (with witnesses and counterexamples).
-/

theorem pyStartsWith_iff (w : Str) : ∀ t : Str, pyStartsWith w t = true ↔ ∃ v, t = w ++ v := by
  induction w with
  | nil =>
    intro t
    simp [pyStartsWith]
  | cons a as ih =>
    intro t
    cases t with
    | nil => simp [pyStartsWith]
    | cons b bs =>
      simp only [pyStartsWith, Bool.and_eq_true, decide_eq_true_eq, ih bs, List.cons_append,
        List.cons.injEq]
      constructor
      · rintro ⟨rfl, v, rfl⟩
        exact ⟨v, rfl, rfl⟩
      · rintro ⟨v, rfl, rfl⟩
        exact ⟨rfl, v, rfl⟩

theorem pyIn_iff (w : Str) : ∀ t : Str, pyIn w t = true ↔ ∃ u v, t = u ++ w ++ v := by
  intro t
  induction t with
  | nil =>
    simp only [pyIn, List.isEmpty_iff]
    constructor
    · rintro rfl
      exact ⟨[], [], rfl⟩
    · rintro ⟨u, v, h⟩
      rcases List.append_eq_nil.mp h.symm with ⟨h1, h2⟩
      exact (List.append_eq_nil.mp h1).2
  | cons c t ih =>
    simp only [pyIn, Bool.or_eq_true, pyStartsWith_iff, ih]
    constructor
    · rintro (⟨v, hv⟩ | ⟨u, v, huv⟩)
      · exact ⟨[], v, by simp [hv]⟩
      · exact ⟨c :: u, v, by simp [huv]⟩
    · rintro ⟨u, v, huv⟩
      cases u with
      | nil =>
        exact Or.inl ⟨v, by simpa using huv⟩
      | cons d u =>
        simp only [List.cons_append, List.cons.injEq] at huv
        exact Or.inr ⟨u, v, huv.2⟩

/-- Sample detection result used by witnesses, distinguished by timestamp. -/
def sampleResult (n : Nat) : DetectionResult :=
  { status := "detection".data, timestamp := n, response := "Path clear.".data,
    detections := [], objects_count := 0, emotion := "happy".data,
    emotion_intensity := some 0.6 }

/-- C2: enqueuing into a full result queue (capacity 5) does not block: the
oldest queued result is evicted, the new result is admitted at the back, the
queue stays at capacity, and (when the queue entries are pairwise distinct)
the previously oldest entry is gone afterwards. -/
theorem vision_queue_overwrite_evicts_oldest (q : List DetectionResult)
    (result : DetectionResult) (hfull : q.length = QUEUE_MAXSIZE) :
    visionQueuePut q result = q.tail ++ [result] ∧
    result ∈ visionQueuePut q result ∧
    (visionQueuePut q result).length = QUEUE_MAXSIZE ∧
    (visionQueuePut q result).getLast? = some result ∧
    (∀ h rest, q = h :: rest → h ∉ rest → h ≠ result →
      h ∉ visionQueuePut q result) := by
  have hput : visionQueuePut q result = q.tail ++ [result] := by
    unfold visionQueuePut
    simp [hfull]
  refine ⟨hput, ?_, ?_, ?_, ?_⟩
  · rw [hput]
    simp
  · rw [hput]
    simp [hfull, QUEUE_MAXSIZE]
  · rw [hput]
    simp
  · intro h rest hq hmem hne
    rw [hput, hq]
    simp only [List.tail_cons, List.mem_append, List.mem_singleton]
    rintro (hc | hc)
    · exact hmem hc
    · exact hne hc

/-- Witness for C2 at a concrete full queue. -/
theorem vision_queue_overwrite_evicts_oldest_witness :
    visionQueuePut
        [sampleResult 0, sampleResult 1, sampleResult 2, sampleResult 3, sampleResult 4]
        (sampleResult 5) =
      [sampleResult 1, sampleResult 2, sampleResult 3, sampleResult 4, sampleResult 5] ∧
    sampleResult 0 ∉
      visionQueuePut
        [sampleResult 0, sampleResult 1, sampleResult 2, sampleResult 3, sampleResult 4]
        (sampleResult 5) := by
  have h := vision_queue_overwrite_evicts_oldest
    [sampleResult 0, sampleResult 1, sampleResult 2, sampleResult 3, sampleResult 4]
    (sampleResult 5) (by rfl)
  exact ⟨h.1, h.2.2.2.2 (sampleResult 0)
    [sampleResult 1, sampleResult 2, sampleResult 3, sampleResult 4] rfl
    (by decide) (by decide)⟩

/-- C5: translate_text is the identity on its text argument whenever the
translator capability is unavailable, or the text is empty or whitespace
only, or the mapped source language equals the mapped target language and is
not the wildcard auto, or the external translation call raises; no error is
ever propagated. -/
theorem translate_text_identity_cases (available : Bool)
    (gt : Str → Str → Str → Option Str) (text source_lang target_lang : Str) :
    (available = false →
      translate_text available gt text source_lang target_lang = text) ∧
    ((pyStrip text).isEmpty = true →
      translate_text available gt text source_lang target_lang = text) ∧
    (dictGet LANGUAGE_MAP source_lang source_lang =
        dictGet LANGUAGE_MAP target_lang target_lang →
      dictGet LANGUAGE_MAP source_lang source_lang ≠ "auto".data →
      translate_text available gt text source_lang target_lang = text) ∧
    (gt (dictGet LANGUAGE_MAP source_lang source_lang)
        (dictGet LANGUAGE_MAP target_lang target_lang) text = none →
      translate_text available gt text source_lang target_lang = text) := by
  refine ⟨?_, ?_, ?_, ?_⟩
  · intro h
    subst h
    simp [translate_text]
  · intro h
    unfold translate_text
    cases available with
    | false => simp
    | true => simp [h]
  · intro h1 h2
    unfold translate_text
    cases available with
    | false => simp
    | true =>
      simp only [Bool.not_true, Bool.false_eq_true, if_false]
      split
      · rfl
      · simp only [h1]
        by_cases hc : dictGet LANGUAGE_MAP target_lang target_lang = "auto".data
        · exact absurd (h1.trans hc) h2
        · simp [hc]
  · intro hgt
    unfold translate_text
    cases available with
    | false => simp
    | true =>
      simp only [Bool.not_true, Bool.false_eq_true, if_false]
      split
      · rfl
      · split
        · rfl
        · simp [hgt]

/-- Witness for C5: a concrete no-op for same-language translation, for an
unavailable translator, for whitespace text, and for a failing external call. -/
theorem translate_text_identity_cases_witness :
    translate_text true (fun _ _ _ => none) ("hello".data) ("hi-IN".data) ("hi".data) =
      "hello".data ∧
    translate_text false (fun _ _ _ => some ("X".data)) ("hello".data) ("hi".data) ("en".data) =
      "hello".data ∧
    translate_text true (fun _ _ _ => some ("X".data)) ("  ".data) ("hi".data) ("en".data) =
      "  ".data ∧
    translate_text true (fun _ _ _ => none) ("hello".data) ("hi".data) ("en".data) =
      "hello".data := by
  refine ⟨?_, ?_, ?_, ?_⟩
  · exact (translate_text_identity_cases true (fun _ _ _ => none) ("hello".data)
      ("hi-IN".data) ("hi".data)).2.2.1 (by decide) (by decide)
  · exact (translate_text_identity_cases false (fun _ _ _ => some ("X".data)) ("hello".data)
      ("hi".data) ("en".data)).1 rfl
  · exact (translate_text_identity_cases true (fun _ _ _ => some ("X".data)) ("  ".data)
      ("hi".data) ("en".data)).2.1 (by decide)
  · exact (translate_text_identity_cases true (fun _ _ _ => none) ("hello".data)
      ("hi".data) ("en".data)).2.2.2 rfl

/-- C8: the chat emotion heuristic is a pure function of the text that
checks happy (0.8), sad (0.7), surprised (0.75), curious (0.7) in that
order against case-insensitive keyword sets, the first match winning, and
returns (neutral, 0.5) for any text in which no configured keyword occurs
as a substring of the lower-cased text. -/
theorem phi_detect_emotion_priority_and_default (text : Str) :
    (Phi.happyWords.any (fun w => pyIn w (pyLower text)) = true →
      Phi.detect_emotion_from_text text = ("happy".data, 0.8)) ∧
    (Phi.happyWords.any (fun w => pyIn w (pyLower text)) = false →
      Phi.sadWords.any (fun w => pyIn w (pyLower text)) = true →
      Phi.detect_emotion_from_text text = ("sad".data, 0.7)) ∧
    (Phi.happyWords.any (fun w => pyIn w (pyLower text)) = false →
      Phi.sadWords.any (fun w => pyIn w (pyLower text)) = false →
      Phi.surprisedWords.any (fun w => pyIn w (pyLower text)) = true →
      Phi.detect_emotion_from_text text = ("surprised".data, 0.75)) ∧
    (Phi.happyWords.any (fun w => pyIn w (pyLower text)) = false →
      Phi.sadWords.any (fun w => pyIn w (pyLower text)) = false →
      Phi.surprisedWords.any (fun w => pyIn w (pyLower text)) = false →
      Phi.curiousWords.any (fun w => pyIn w (pyLower text)) = true →
      Phi.detect_emotion_from_text text = ("curious".data, 0.7)) ∧
    ((∀ w ∈ Phi.allEmotionWords, ∀ u v : Str, pyLower text ≠ u ++ w ++ v) →
      Phi.detect_emotion_from_text text = ("neutral".data, 0.5)) := by
  have hempty : text = [] →
      Phi.happyWords.any (fun w => pyIn w (pyLower text)) = false ∧
      Phi.sadWords.any (fun w => pyIn w (pyLower text)) = false ∧
      Phi.surprisedWords.any (fun w => pyIn w (pyLower text)) = false ∧
      Phi.curiousWords.any (fun w => pyIn w (pyLower text)) = false := by
    rintro rfl
    decide
  refine ⟨?_, ?_, ?_, ?_, ?_⟩
  · intro h
    cases text with
    | nil => rw [(hempty rfl).1] at h; cases h
    | cons c t =>
      unfold Phi.detect_emotion_from_text
      simp only [List.isEmpty_cons, Bool.false_eq_true, if_false]
      rw [if_pos h]
  · intro h1 h2
    cases text with
    | nil => rw [(hempty rfl).2.1] at h2; cases h2
    | cons c t =>
      unfold Phi.detect_emotion_from_text
      simp only [List.isEmpty_cons, Bool.false_eq_true, if_false]
      rw [if_neg (by simp [h1]), if_pos h2]
  · intro h1 h2 h3
    cases text with
    | nil => rw [(hempty rfl).2.2.1] at h3; cases h3
    | cons c t =>
      unfold Phi.detect_emotion_from_text
      simp only [List.isEmpty_cons, Bool.false_eq_true, if_false]
      rw [if_neg (by simp [h1]), if_neg (by simp [h2]), if_pos h3]
  · intro h1 h2 h3 h4
    cases text with
    | nil => rw [(hempty rfl).2.2.2] at h4; cases h4
    | cons c t =>
      unfold Phi.detect_emotion_from_text
      simp only [List.isEmpty_cons, Bool.false_eq_true, if_false]
      rw [if_neg (by simp [h1]), if_neg (by simp [h2]), if_neg (by simp [h3]), if_pos h4]
  · intro hnone
    have hfalse : ∀ ws : List Str, (∀ w ∈ ws, w ∈ Phi.allEmotionWords) →
        ws.any (fun w => pyIn w (pyLower text)) = false := by
      intro ws hsub
      rw [List.any_eq_false]
      intro w hw
      rw [Bool.not_eq_true, ← Bool.not_eq_true]
      intro hin
      rcases (pyIn_iff w (pyLower text)).mp hin with ⟨u, v, huv⟩
      exact hnone w (hsub w hw) u v huv
    have hh := hfalse Phi.happyWords (by intro w hw; simp [Phi.allEmotionWords, hw])
    have hs := hfalse Phi.sadWords (by intro w hw; simp [Phi.allEmotionWords, hw])
    have hsu := hfalse Phi.surprisedWords (by intro w hw; simp [Phi.allEmotionWords, hw])
    have hc := hfalse Phi.curiousWords (by intro w hw; simp [Phi.allEmotionWords, hw])
    unfold Phi.detect_emotion_from_text
    cases text with
    | nil => simp
    | cons c t =>
      simp only [List.isEmpty_cons, Bool.false_eq_true, if_false]
      rw [if_neg (by simp [hh]), if_neg (by simp [hs]), if_neg (by simp [hsu]),
        if_neg (by simp [hc])]

/-- Witness for C8: a happy text, and a keyword-free text that is neutral. -/
theorem phi_detect_emotion_priority_and_default_witness :
    Phi.detect_emotion_from_text ("Thank you my friend".data) = ("happy".data, 0.8) ∧
    Phi.detect_emotion_from_text ("xyz".data) = ("neutral".data, 0.5) := by
  refine ⟨?_, ?_⟩
  · exact (phi_detect_emotion_priority_and_default ("Thank you my friend".data)).1
      (by decide)
  · refine (phi_detect_emotion_priority_and_default ("xyz".data)).2.2.2.2 ?_
    intro w hw u v huv
    have : pyIn w (pyLower ("xyz".data)) = true :=
      (pyIn_iff w (pyLower ("xyz".data))).mpr ⟨u, v, huv⟩
    have hfalse : Phi.allEmotionWords.any (fun w => pyIn w (pyLower ("xyz".data))) = false := by
      decide
    rw [List.any_eq_false] at hfalse
    exact hfalse w hw this

/-- C10: the vision-variant emotion heuristic is total (a missing text is
treated as empty) and only ever returns (curious, 0.75), (happy, 0.6),
(surprised, 0.8) or (neutral, 0.6); with no configured keyword occurring it
returns (neutral, 0.6), and every intensity lies in [0, 1]. -/
theorem vision_detect_emotion_total_and_default (text : Option Str) :
    (Vision.detect_emotion_from_text text = ("curious".data, 0.75) ∨
     Vision.detect_emotion_from_text text = ("happy".data, 0.6) ∨
     Vision.detect_emotion_from_text text = ("surprised".data, 0.8) ∨
     Vision.detect_emotion_from_text text = ("neutral".data, 0.6)) ∧
    ((∀ w ∈ Vision.curiousWords ++ Vision.happyWords ++ Vision.surprisedWords,
        ∀ u v : Str, pyLower (text.getD []) ≠ u ++ w ++ v) →
      Vision.detect_emotion_from_text text = ("neutral".data, 0.6)) ∧
    Vision.detect_emotion_from_text none = ("neutral".data, 0.6) ∧
    0 ≤ (Vision.detect_emotion_from_text text).2 ∧
    (Vision.detect_emotion_from_text text).2 ≤ 1 := by
  refine ⟨?_, ?_, by rfl, ?_, ?_⟩
  · simp only [Vision.detect_emotion_from_text]
    split
    · exact Or.inl rfl
    · split
      · exact Or.inr (Or.inl rfl)
      · split
        · exact Or.inr (Or.inr (Or.inl rfl))
        · exact Or.inr (Or.inr (Or.inr rfl))
  · intro hnone
    have hfalse : ∀ ws : List Str,
        (∀ w ∈ ws, w ∈ Vision.curiousWords ++ Vision.happyWords ++ Vision.surprisedWords) →
        ws.any (fun w => pyIn w (pyLower (text.getD []))) = false := by
      intro ws hsub
      rw [List.any_eq_false]
      intro w hw
      rw [Bool.not_eq_true, ← Bool.not_eq_true]
      intro hin
      rcases (pyIn_iff w (pyLower (text.getD []))).mp hin with ⟨u, v, huv⟩
      exact hnone w (hsub w hw) u v huv
    have hc := hfalse Vision.curiousWords (by intro w hw; simp [hw])
    have hh := hfalse Vision.happyWords (by intro w hw; simp [hw])
    have hs := hfalse Vision.surprisedWords (by intro w hw; simp [hw])
    unfold Vision.detect_emotion_from_text
    rw [if_neg (by simp [hc]), if_neg (by simp [hh]), if_neg (by simp [hs])]
  · simp only [Vision.detect_emotion_from_text]
    split
    · norm_num
    · split
      · norm_num
      · split
        · norm_num
        · norm_num
  · simp only [Vision.detect_emotion_from_text]
    split
    · norm_num
    · split
      · norm_num
      · split
        · norm_num
        · norm_num

/-- Witness for C10: missing text and a keyword-free text are neutral with
intensity 0.6; a person-mentioning text is curious. -/
theorem vision_detect_emotion_total_and_default_witness :
    Vision.detect_emotion_from_text (some ("abc".data)) = ("neutral".data, 0.6) ∧
    (0 : ℚ) ≤ (Vision.detect_emotion_from_text (some ("A person ahead".data))).2 ∧
    (Vision.detect_emotion_from_text (some ("A person ahead".data))).2 ≤ 1 := by
  refine ⟨?_, ?_, ?_⟩
  · refine (vision_detect_emotion_total_and_default (some ("abc".data))).2.1 ?_
    intro w hw u v huv
    have : pyIn w (pyLower ((some ("abc".data)).getD [])) = true :=
      (pyIn_iff w (pyLower ((some ("abc".data)).getD []))).mpr ⟨u, v, huv⟩
    have hfalse : (Vision.curiousWords ++ Vision.happyWords ++ Vision.surprisedWords).any
        (fun w => pyIn w (pyLower ((some ("abc".data)).getD []))) = false := by
      decide
    rw [List.any_eq_false] at hfalse
    exact hfalse w hw this
  · exact (vision_detect_emotion_total_and_default (some ("A person ahead".data))).2.2.2.1
  · exact (vision_detect_emotion_total_and_default (some ("A person ahead".data))).2.2.2.2

/-- The labels the chat emotion heuristic can produce. -/
def chatEmotionLabels : List Str :=
  ["happy".data, "sad".data, "surprised".data, "curious".data, "neutral".data]

theorem phi_detect_emotion_valid (t : Str) :
    (Phi.detect_emotion_from_text t).1 ∈ chatEmotionLabels ∧
    0 ≤ (Phi.detect_emotion_from_text t).2 ∧ (Phi.detect_emotion_from_text t).2 ≤ 1 := by
  simp only [Phi.detect_emotion_from_text]
  split
  · exact ⟨by simp [chatEmotionLabels], by norm_num, by norm_num⟩
  · split
    · exact ⟨by simp [chatEmotionLabels], by norm_num, by norm_num⟩
    · split
      · exact ⟨by simp [chatEmotionLabels], by norm_num, by norm_num⟩
      · split
        · exact ⟨by simp [chatEmotionLabels], by norm_num, by norm_num⟩
        · split
          · exact ⟨by simp [chatEmotionLabels], by norm_num, by norm_num⟩
          · exact ⟨by simp [chatEmotionLabels], by norm_num, by norm_num⟩

theorem askPhiLoop_attempts_le (oracle : Str → Nat → Option Str) (message lang : Str) :
    ∀ fuel attempt, (Phi.askPhiLoop oracle message lang attempt fuel).2.1 ≤ attempt + fuel + 1 := by
  intro fuel
  induction fuel with
  | zero =>
    intro attempt
    simp only [Phi.askPhiLoop]
    cases h : Phi.phiAttempt oracle message attempt <;> simp [h]
  | succ f ih =>
    intro attempt
    simp only [Phi.askPhiLoop]
    cases h : Phi.phiAttempt oracle message attempt with
    | none =>
      simp only [h]
      have hih := ih (attempt + 1)
      show (Phi.askPhiLoop oracle message lang (attempt + 1) f).2.1 ≤ attempt + (f + 1) + 1
      omega
    | some reply => simp [h]

/-- C4: the dialogue operation never raises: with the inference service
available, when both attempts fail ask_phi has made exactly two attempts
with a single 1-second sleep between them and returns the canned apology
for the requested language from the static table; ask_phi never makes more
than MAX_RETRIES + 1 attempts, and ask_phi_with_emotion always hands the
caller a well-formed (reply, emotion, intensity) triple. -/
theorem ask_phi_retry_fallback_and_total_triple (available : Bool)
    (oracle : Str → Nat → Option Str) (t2e : Str → Option Str)
    (tfe : Str → Str → Option Str) (message lang : Str) :
    (Phi.phiAttempt oracle message 0 = none → Phi.phiAttempt oracle message 1 = none →
      Phi.ask_phi true oracle message lang = (Phi.error_messages lang, 2, [(1 : ℚ)])) ∧
    (Phi.ask_phi available oracle message lang).2.1 ≤ Phi.MAX_RETRIES + 1 ∧
    ((Phi.ask_phi_with_emotion available oracle t2e tfe message lang).2.1 ∈ chatEmotionLabels ∧
      0 ≤ (Phi.ask_phi_with_emotion available oracle t2e tfe message lang).2.2 ∧
      (Phi.ask_phi_with_emotion available oracle t2e tfe message lang).2.2 ≤ 1) := by
  refine ⟨?_, ?_, ?_⟩
  · intro h0 h1
    have hstep : Phi.ask_phi true oracle message lang =
        Phi.askPhiLoop oracle message lang 0 Phi.MAX_RETRIES := rfl
    rw [hstep]
    simp only [Phi.MAX_RETRIES]
    simp only [Phi.askPhiLoop, h0, h1]
  · unfold Phi.ask_phi
    cases available with
    | false => simp
    | true =>
      simp only [if_true]
      have := askPhiLoop_attempts_le oracle message lang Phi.MAX_RETRIES 0
      omega
  · simp only [Phi.ask_phi_with_emotion]
    exact ⟨(phi_detect_emotion_valid _).1, (phi_detect_emotion_valid _).2.1,
      (phi_detect_emotion_valid _).2.2⟩

/-- Witness for C4: with a collaborator that always fails, ask_phi returns
the Hindi apology after two attempts and one sleep, and the emotion triple
is well-formed. -/
theorem ask_phi_retry_fallback_and_total_triple_witness :
    Phi.ask_phi true (fun _ _ => none) ("Hello".data) ("hi".data) =
      (Phi.error_messages ("hi".data), 2, [(1 : ℚ)]) ∧
    (Phi.ask_phi_with_emotion true (fun _ _ => none) (fun _ => none) (fun _ _ => none)
        ("Hello".data) ("hi".data)).2.1 ∈ chatEmotionLabels := by
  have h := ask_phi_retry_fallback_and_total_triple true (fun _ _ => none) (fun _ => none)
    (fun _ _ => none) ("Hello".data) ("hi".data)
  exact ⟨h.1 rfl rfl, h.2.2.1⟩

/-- Sample session used by witnesses (registered under identifier s1). -/
def sampleSession : VisionSession :=
  { session_id := "s1".data, language := "hi-IN".data, active := true,
    queue := [sampleResult 0], last_activity := 10 }

/-- Sample registry holding exactly the sample session. -/
def sampleRegistry : Registry :=
  fun k => if k = "s1".data then some sampleSession else none

/-- C1: at most one active worker exists per session identifier: starting a
session whose resolved identifier is already registered first deactivates
the existing session (its worker's stop signal) and hands it back as the
stopped session, then registers a fresh session that is active with an empty
queue under the identifier; other identifiers are untouched. -/
theorem api_vision_start_replaces_session (reg : Registry)
    (sid_opt lang_opt : Option Str) (fallback_id : Str) (now : ℚ)
    (sid : Str) (reg2 : Registry) (stopped : Option VisionSession)
    (heq : api_vision_start reg sid_opt lang_opt fallback_id now = (sid, reg2, stopped)) :
    reg2 sid = some {
      session_id := sid,
      language := lang_opt.getD ("en-US".data),
      active := true, queue := [], last_activity := now } ∧
    (∀ old, reg sid = some old → stopped = some { old with active := false }) ∧
    (reg sid = none → stopped = none) ∧
    (∀ old, stopped = some old → old.active = false) ∧
    (∀ k, k ≠ sid → reg2 k = reg k) := by
  simp only [api_vision_start] at heq
  injection heq with h1 hrest
  injection hrest with h2 h3
  subst h1
  subst h2
  subst h3
  refine ⟨?_, ?_, ?_, ?_, ?_⟩
  · show (if resolveSessionId sid_opt fallback_id = resolveSessionId sid_opt fallback_id
        then _ else _) = _
    rw [if_pos rfl]
  · intro old hold
    rw [hold]
    rfl
  · intro hnone
    rw [hnone]
    rfl
  · intro old hold
    cases hr : reg (resolveSessionId sid_opt fallback_id) with
    | none =>
      rw [hr] at hold
      cases hold
    | some s =>
      rw [hr] at hold
      rw [← Option.some.inj hold]
      rfl
  · intro k hk
    show (if k = resolveSessionId sid_opt fallback_id then _
        else if k = resolveSessionId sid_opt fallback_id then _ else reg k) = reg k
    rw [if_neg hk, if_neg hk]

/-- Witness for C1: restarting the registered identifier s1 deactivates the
old session and registers a fresh active one with an empty queue. -/
theorem api_vision_start_replaces_session_witness :
    (api_vision_start sampleRegistry (some ("s1".data)) (some ("ta-IN".data))
        ("99".data) 42).2.1 ("s1".data) =
      some {
        session_id := "s1".data, language := "ta-IN".data, active := true,
        queue := [], last_activity := 42 } ∧
    (api_vision_start sampleRegistry (some ("s1".data)) (some ("ta-IN".data))
        ("99".data) 42).2.2 = some { sampleSession with active := false } := by
  have h := api_vision_start_replaces_session sampleRegistry (some ("s1".data))
    (some ("ta-IN".data)) ("99".data) 42
    ((api_vision_start sampleRegistry (some ("s1".data)) (some ("ta-IN".data))
        ("99".data) 42).1)
    ((api_vision_start sampleRegistry (some ("s1".data)) (some ("ta-IN".data))
        ("99".data) 42).2.1)
    ((api_vision_start sampleRegistry (some ("s1".data)) (some ("ta-IN".data))
        ("99".data) 42).2.2)
    rfl
  exact ⟨h.1, h.2.1 sampleSession rfl⟩

/-- C3: polling with a missing, falsy or unknown identifier yields the
not-found marker with HTTP 404 and leaves the registry unchanged; polling a
known session refreshes its last-activity stamp and attempts a non-blocking
dequeue: an empty queue yields the no-data marker with HTTP 200 (not an
error), and a non-empty queue destructively yields its oldest result, whose
response text is translated from English into the session language when
that language is not English. -/
theorem api_vision_poll_cases (available : Bool) (gt : Str → Str → Str → Option Str)
    (reg : Registry) (sid_opt : Option Str) (now : ℚ) :
    ((sid_opt = none ∨ sid_opt = some [] ∨ (∀ s, sid_opt = some s → reg s = none)) →
      api_vision_poll available gt reg sid_opt now = (PollOutcome.noSession, 404, reg)) ∧
    (∀ s session, sid_opt = some s → s ≠ [] → reg s = some session → session.queue = [] →
      api_vision_poll available gt reg sid_opt now =
        (PollOutcome.noData, 200,
         fun k => if k = s then some { session with last_activity := now } else reg k)) ∧
    (∀ s session d rest, sid_opt = some s → s ≠ [] → reg s = some session →
      session.queue = d :: rest →
      api_vision_poll available gt reg sid_opt now =
        (PollOutcome.result
          (if langPrefix session.language ≠ "en".data then
            { d with
              response := translate_text available gt d.response ("en".data)
                (langPrefix session.language) }
           else d),
         200,
         fun k => if k = s then
            some { session with last_activity := now, queue := rest } else reg k)) := by
  refine ⟨?_, ?_, ?_⟩
  · rintro (rfl | rfl | h)
    · rfl
    · rfl
    · cases sid_opt with
      | none => rfl
      | some s =>
        simp only [api_vision_poll]
        by_cases hs : s.isEmpty
        · rw [if_pos hs]
        · have hs2 : s.isEmpty = false := by
            rw [← Bool.not_eq_true]
            exact hs
          simp only [hs2, Bool.false_eq_true, if_false, h s rfl]
  · intro s session hsid hs hreg hq
    subst hsid
    have hs2 : s.isEmpty = false := by
      simp [List.isEmpty_iff, hs]
    simp only [api_vision_poll, hs2, Bool.false_eq_true, if_false, hreg, hq]
  · intro s session d rest hsid hs hreg hq
    subst hsid
    have hs2 : s.isEmpty = false := by
      simp [List.isEmpty_iff, hs]
    simp only [api_vision_poll, hs2, Bool.false_eq_true, if_false, hreg, hq]

/-- Witness for C3: polling the sample session dequeues its single queued
result with the response translated to Hindi, updates the session in the
registry (empty queue, refreshed last-activity), and polling an unknown
identifier yields the 404 marker. -/
theorem api_vision_poll_cases_witness :
    (api_vision_poll true (fun _ _ _ => some ("X".data)) sampleRegistry
        (some ("s1".data)) 50).1 =
      PollOutcome.result { sampleResult 0 with response := "X".data } ∧
    (api_vision_poll true (fun _ _ _ => some ("X".data)) sampleRegistry
        (some ("s1".data)) 50).2.1 = 200 ∧
    (api_vision_poll true (fun _ _ _ => some ("X".data)) sampleRegistry
        (some ("s1".data)) 50).2.2 ("s1".data) =
      some { sampleSession with last_activity := 50, queue := [] } ∧
    api_vision_poll true (fun _ _ _ => some ("X".data)) sampleRegistry
        (some ("s2".data)) 50 =
      (PollOutcome.noSession, 404, sampleRegistry) := by
  have h := (api_vision_poll_cases true (fun _ _ _ => some ("X".data)) sampleRegistry
    (some ("s1".data)) 50).2.2 ("s1".data) sampleSession (sampleResult 0) [] rfl
    (by decide) rfl rfl
  have h2 := (api_vision_poll_cases true (fun _ _ _ => some ("X".data)) sampleRegistry
    (some ("s2".data)) 50).1 (Or.inr (Or.inr (by intro s hs; injection hs with hs; subst hs; rfl)))
  refine ⟨?_, ?_, ?_, h2⟩
  · rw [h]
    rfl
  · rw [h]
  · rw [h]
    rfl

theorem dedupDescribe_length_le (p : Vision.PhraseTable) :
    ∀ l seen, (Vision.dedupDescribe p l seen).length ≤ l.length := by
  intro l
  induction l with
  | nil => intro seen; simp [Vision.dedupDescribe]
  | cons i l ih =>
    intro seen
    simp only [Vision.dedupDescribe]
    split
    · exact le_trans (ih seen) (by simp)
    · simpa using ih (i.label :: seen)

/-- Counterexample for C9: two items of equal priority (both labels default
to 3) with different size ratios.  The code's
sorted(key=(priority, -size_ratio), reverse=True) puts the SMALLER size
ratio first when priorities tie (the negation and reverse=True cancel), so
the smaller cat (0.2) is described before the larger bottle (0.7), not the
other way round as the claim's "larger size ratio first" requires. -/
theorem create_natural_description_tie_counterexample :
    Vision.create_natural_description
        [{ label := "cat".data, direction := "ahead".data, confidence := mkRat 1 2,
           distance := "far".data, size_ratio := mkRat 1 5 },
         { label := "bottle".data, direction := "left".data, confidence := mkRat 1 2,
           distance := "far".data, size_ratio := mkRat 7 10 }] ("en".data) =
      "I see cat ahead, bottle on your left.".data ∧
    Vision.create_natural_description
        [{ label := "cat".data, direction := "ahead".data, confidence := mkRat 1 2,
           distance := "far".data, size_ratio := mkRat 1 5 },
         { label := "bottle".data, direction := "left".data, confidence := mkRat 1 2,
           distance := "far".data, size_ratio := mkRat 7 10 }] ("en".data) ≠
      "I see bottle on your left, cat ahead.".data := by
  constructor
  · rfl
  · decide

/-- C9 (amended): describeNaturally ranks the detected items by the fixed
label-priority table (person=10, car/truck=8, dog=7, chair=6, default=3)
with ties broken by SMALLER size ratio first (the source's -size_ratio key
combined with reverse=True), keeps up to 2 distinct labels (deduplicated by
label, first occurrence after ranking, never more than two), composes the
phrase-table sentence in the target language from them, and returns the
per-language clear phrase when the item list is empty. -/
theorem create_natural_description_spec (items : List Vision.Item) (lang : Str) :
    (items = [] → Vision.create_natural_description items lang =
      (Vision.LANGUAGE_PHRASES_get lang).clear) ∧
    (Vision.items_sorted items).Perm items ∧
    List.Pairwise Vision.itemRank (Vision.items_sorted items) ∧
    (Vision.dedupDescribe (Vision.LANGUAGE_PHRASES_get lang)
      ((Vision.items_sorted items).take 2) []).length ≤ 2 ∧
    (items ≠ [] →
      Vision.create_natural_description items lang =
        (Vision.LANGUAGE_PHRASES_get lang).see ++ [' '] ++
          List.intercalate (',' :: ' ' :: [])
            (Vision.dedupDescribe (Vision.LANGUAGE_PHRASES_get lang)
              ((Vision.items_sorted items).take 2) []) ++ ['.']) := by
  refine ⟨?_, ?_, ?_, ?_, ?_⟩
  · rintro rfl
    rfl
  · exact List.perm_insertionSort Vision.itemRank items
  · exact List.sorted_insertionSort Vision.itemRank items
  · exact le_trans (dedupDescribe_length_le _ _ _) (by simp)
  · intro hne
    have hsne : Vision.items_sorted items ≠ [] := by
      intro hcontr
      have hperm : (Vision.items_sorted items).Perm items :=
        List.perm_insertionSort Vision.itemRank items
      rw [hcontr] at hperm
      have hlen := hperm.length_eq
      simp only [List.length_nil] at hlen
      exact hne (List.eq_nil_of_length_eq_zero hlen.symm)
    rcases hsort : Vision.items_sorted items with _ | ⟨i, l⟩
    · exact absurd hsort hsne
    · have hdesc : Vision.dedupDescribe (Vision.LANGUAGE_PHRASES_get lang)
          ((Vision.items_sorted items).take 2) [] ≠ [] := by
        rw [hsort]
        simp [Vision.dedupDescribe]
      unfold Vision.create_natural_description
      rw [if_neg (by simp [List.isEmpty_iff, hne])]
      rw [if_neg (by simp [List.isEmpty_iff, hdesc])]
      rw [hsort]

/-- Witness for C9 (amended) at a concrete two-item scene. -/
theorem create_natural_description_spec_witness :
    Vision.create_natural_description
        [{ label := "person".data, direction := "left".data, confidence := mkRat 9 10,
           distance := "close".data, size_ratio := mkRat 3 10 },
         { label := "dog".data, direction := "right".data, confidence := mkRat 4 5,
           distance := "far".data, size_ratio := mkRat 1 10 }] ("en".data) =
      "I see person on your left, dog on your right.".data ∧
    List.Pairwise Vision.itemRank (Vision.items_sorted
      [{ label := "person".data, direction := "left".data, confidence := mkRat 9 10,
         distance := "close".data, size_ratio := mkRat 3 10 },
       { label := "dog".data, direction := "right".data, confidence := mkRat 4 5,
         distance := "far".data, size_ratio := mkRat 1 10 }]) := by
  have h := create_natural_description_spec
    [{ label := "person".data, direction := "left".data, confidence := mkRat 9 10,
       distance := "close".data, size_ratio := mkRat 3 10 },
     { label := "dog".data, direction := "right".data, confidence := mkRat 4 5,
       distance := "far".data, size_ratio := mkRat 1 10 }] ("en".data)
  refine ⟨?_, h.2.2.1⟩
  · rw [h.2.2.2.2 (by decide)]
    rfl

theorem ask_phi_with_emotion_en (available : Bool) (oracle : Str → Nat → Option Str)
    (t2e : Str → Option Str) (tfe : Str → Str → Option Str) (msg : Str) :
    Phi.ask_phi_with_emotion available oracle t2e tfe msg ("en".data) =
      ((Phi.ask_phi available oracle msg ("en".data)).1,
       (Phi.detect_emotion_from_text ((Phi.ask_phi available oracle msg ("en".data)).1)).1,
       (Phi.detect_emotion_from_text ((Phi.ask_phi available oracle msg ("en".data)).1)).2) := by
  simp [Phi.ask_phi_with_emotion]

/-- Concrete translation oracle for the C7 scene: the Hindi input maps to an
English question, the English reply maps to a Hindi sentence containing no
emotion keyword. -/
def cexTranslator : Str → Str → Str → Option Str :=
  fun src _ _ =>
    if src = "hi".data then some ("what is this".data)
    else if src = "en".data then some ("वह शानदार है".data)
    else none

/-- Concrete inference oracle for the C7 scene: always replies with an
English sentence containing the happy keyword great. -/
def cexOracle : Str → Nat → Option Str := fun _ _ => some ("That is great".data)

/-- Counterexample for C7: for a Hindi /phi request the code returns the
emotion pair computed from the intermediate English reply (happy, 0.8),
while the keyword heuristic on the final, user-language reply it returns
would give (neutral, 0.5) — so the pair is NOT derived from the final
user-language reply text. -/
theorem phi_endpoint_emotion_counterexample :
    ((phi_endpoint true cexTranslator cexOracle (fun _ => none) (fun _ _ => none)
        ("यह क्या है".data) ("hi-IN".data)).1.2.1,
      (phi_endpoint true cexTranslator cexOracle (fun _ => none) (fun _ _ => none)
        ("यह क्या है".data) ("hi-IN".data)).1.2.2.1) ≠
      Phi.detect_emotion_from_text
        ((phi_endpoint true cexTranslator cexOracle (fun _ => none) (fun _ _ => none)
          ("यह क्या है".data) ("hi-IN".data)).1.1) ∧
    (phi_endpoint true cexTranslator cexOracle (fun _ => none) (fun _ _ => none)
        ("यह क्या है".data) ("hi-IN".data)).1.2.1 = "happy".data ∧
    (phi_endpoint true cexTranslator cexOracle (fun _ => none) (fun _ _ => none)
        ("यह क्या है".data) ("hi-IN".data)).1.1 = "वह शानदार है".data ∧
    Phi.detect_emotion_from_text
        ((phi_endpoint true cexTranslator cexOracle (fun _ => none) (fun _ _ => none)
          ("यह क्या है".data) ("hi-IN".data)).1.1) = ("neutral".data, 0.5) := by
  refine ⟨?_, rfl, rfl, rfl⟩
  intro h
  have h1 := congrArg Prod.fst h
  exact absurd h1 (by decide)

/-- C7 (amended): for every /phi request with nonempty input and a
non-English normalized language, the (emotion, intensity) pair the endpoint
returns is derived by the keyword heuristic from the INTERMEDIATE ENGLISH
reply (the inference output before outbound translation), not from the
final user-language reply. -/
theorem phi_endpoint_emotion_from_english (available : Bool)
    (gt : Str → Str → Str → Option Str) (oracle : Str → Nat → Option Str)
    (t2e : Str → Option Str) (tfe : Str → Str → Option Str)
    (user_input language : Str) (hne : user_input ≠ [])
    (hlang : (if pyIn ("-".data) language then langPrefix language else language) ≠
      "en".data) :
    ((phi_endpoint available gt oracle t2e tfe user_input language).1.2.1,
      (phi_endpoint available gt oracle t2e tfe user_input language).1.2.2.1) =
      Phi.detect_emotion_from_text
        ((Phi.ask_phi available oracle
          (translate_text available gt user_input
            (if pyIn ("-".data) language then langPrefix language else language)
            ("en".data))
          ("en".data)).1) := by
  simp only [phi_endpoint]
  rw [if_neg (by simp [List.isEmpty_iff, hne])]
  rw [if_pos hlang, ask_phi_with_emotion_en]
  rw [if_pos hlang]

/-- Witness for C7 (amended) at the concrete Hindi scene: the returned pair
equals the heuristic on the English reply, namely (happy, 0.8). -/
theorem phi_endpoint_emotion_from_english_witness :
    ((phi_endpoint true cexTranslator cexOracle (fun _ => none) (fun _ _ => none)
        ("नमस्ते आप कैसे हैं".data) ("hi-IN".data)).1.2.1,
      (phi_endpoint true cexTranslator cexOracle (fun _ => none) (fun _ _ => none)
        ("नमस्ते आप कैसे हैं".data) ("hi-IN".data)).1.2.2.1) =
      ("happy".data, (0.8 : ℚ)) := by
  have h := phi_endpoint_emotion_from_english true cexTranslator cexOracle
    (fun _ => none) (fun _ _ => none) ("नमस्ते आप कैसे हैं".data) ("hi-IN".data)
    (by decide) (by decide)
  rw [h]
  rfl

theorem hasPair_cons_of_ne (a b c : Char) (hc : c ≠ a) (l : Str) :
    hasPair a b (c :: l) = hasPair a b l := by
  cases l with
  | nil => rfl
  | cons y rest => simp [hasPair, hc]

theorem hasPair_of_cons (a b c : Char) (l : Str) (h : hasPair a b (c :: l) = false) :
    hasPair a b l = false := by
  cases l with
  | nil => rfl
  | cons y r =>
    simp only [hasPair, Bool.or_eq_false_iff] at h
    exact h.2

theorem hasPair_append (a b : Char) : ∀ x y : Str, hasPair a b (x ++ y) = false →
    hasPair a b x = false ∧ hasPair a b y = false := by
  intro x
  induction x with
  | nil => intro y h; exact ⟨rfl, h⟩
  | cons c x ih =>
    intro y h
    cases x with
    | nil =>
      refine ⟨rfl, ?_⟩
      cases y with
      | nil => rfl
      | cons d y2 =>
        simp only [List.singleton_append] at h
        simp only [hasPair, Bool.or_eq_false_iff] at h
        exact h.2
    | cons d x2 =>
      simp only [List.cons_append] at h
      simp only [hasPair, Bool.or_eq_false_iff] at h
      obtain ⟨h1, h2⟩ := h
      have h3 := ih y (by simpa using h2)
      constructor
      · simp only [hasPair, Bool.or_eq_false_iff]
        exact ⟨h1, h3.1⟩
      · exact h3.2

theorem hasPair_of_between (a b : Char) {u s v t : Str} (ht : t = u ++ s ++ v)
    (h : hasPair a b t = false) : hasPair a b s = false := by
  subst ht
  exact (hasPair_append a b u s (hasPair_append a b (u ++ s) v h).1).2

theorem hasPair_append_cons (a b c : Char) (hcb : c ≠ b) :
    ∀ u v : Str, hasPair a b u = false → hasPair a b (c :: v) = false →
      hasPair a b (u ++ c :: v) = false := by
  intro u
  induction u with
  | nil => intro v _ h2; simpa using h2
  | cons x u ih =>
    intro v h1 h2
    cases u with
    | nil =>
      simp only [List.singleton_append]
      simp only [hasPair, Bool.or_eq_false_iff]
      exact ⟨by simp [hcb], h2⟩
    | cons y u2 =>
      simp only [hasPair, Bool.or_eq_false_iff] at h1
      simp only [List.cons_append]
      simp only [hasPair, Bool.or_eq_false_iff]
      refine ⟨h1.1, ?_⟩
      have h3 := ih v h1.2 h2
      simpa using h3

theorem splitDS_ne_nil : ∀ t : Str, splitDS t ≠ [] := by
  intro t
  induction t using splitDS.induct with
  | case1 rest ih => simp [splitDS.eq_1]
  | case2 c rest hcond hnil ih => exact absurd hnil ih
  | case3 c rest hcond s ss hss ih =>
    rw [splitDS.eq_2 c rest hcond, hss]
    simp
  | case4 => simp [splitDS.eq_3]

theorem splitDS_head_pre : ∀ t : Str, ∃ r, t = (splitDS t).headI ++ r := by
  intro t
  induction t using splitDS.induct with
  | case1 rest ih =>
    refine ⟨'.' :: ' ' :: rest, ?_⟩
    rw [splitDS.eq_1]
    rfl
  | case2 c rest hcond hnil ih => exact absurd hnil (splitDS_ne_nil rest)
  | case3 c rest hcond s ss hss ih =>
    obtain ⟨r, hr⟩ := ih
    rw [hss] at hr
    simp only [List.headI] at hr
    refine ⟨r, ?_⟩
    rw [splitDS.eq_2 c rest hcond, hss]
    simp only [List.headI, List.cons_append]
    rw [← hr]
  | case4 => exact ⟨[], rfl⟩

theorem splitDS_mem_between : ∀ t s : Str, s ∈ splitDS t → ∃ u v, t = u ++ s ++ v := by
  intro t
  induction t using splitDS.induct with
  | case1 rest ih =>
    intro s hs
    rw [splitDS.eq_1] at hs
    rcases List.mem_cons.mp hs with rfl | hs2
    · exact ⟨[], '.' :: ' ' :: rest, rfl⟩
    · obtain ⟨u, v, huv⟩ := ih s hs2
      exact ⟨'.' :: ' ' :: u, v, by simp [huv]⟩
  | case2 c rest hcond hnil ih =>
    intro s hs
    exact absurd hnil (splitDS_ne_nil rest)
  | case3 c rest hcond s0 ss hss ih =>
    intro s hs
    rw [splitDS.eq_2 c rest hcond, hss] at hs
    rcases List.mem_cons.mp hs with rfl | hs2
    · obtain ⟨r, hr⟩ := splitDS_head_pre rest
      rw [hss] at hr
      simp only [List.headI] at hr
      exact ⟨[], r, by rw [List.nil_append, List.cons_append, ← hr]⟩
    · obtain ⟨u, v, huv⟩ := ih s (by rw [hss]; exact List.mem_cons_of_mem _ hs2)
      exact ⟨c :: u, v, by simp [huv]⟩
  | case4 =>
    intro s hs
    rw [splitDS.eq_3] at hs
    rcases List.mem_cons.mp hs with rfl | hs2
    · exact ⟨[], [], rfl⟩
    · cases hs2

theorem splitDS_mem_pairFree : ∀ t s : Str, s ∈ splitDS t → hasPair '.' ' ' s = false := by
  intro t
  induction t using splitDS.induct with
  | case1 rest ih =>
    intro s hs
    rw [splitDS.eq_1] at hs
    rcases List.mem_cons.mp hs with rfl | hs2
    · rfl
    · exact ih s hs2
  | case2 c rest hcond hnil ih =>
    intro s hs
    exact absurd hnil (splitDS_ne_nil rest)
  | case3 c rest hcond s0 ss hss ih =>
    intro s hs
    rw [splitDS.eq_2 c rest hcond, hss] at hs
    rcases List.mem_cons.mp hs with rfl | hs2
    · obtain ⟨r, hr0⟩ := splitDS_head_pre rest
      rw [hss] at hr0
      simp only [List.headI] at hr0
      have hs0 : hasPair '.' ' ' s0 = false := ih s0 (by rw [hss]; exact List.mem_cons_self _ _)
      rcases s0 with _ | ⟨d, s0t⟩
      · rfl
      · have hwin : (c = '.' ∧ d = ' ') → False := by
          rintro ⟨rfl, rfl⟩
          exact hcond (s0t ++ r) rfl (by rw [hr0]; rfl)
        simp only [hasPair, Bool.or_eq_false_iff]
        constructor
        · by_cases hc : c = '.'
          · by_cases hd : d = ' '
            · exact absurd ⟨hc, hd⟩ hwin
            · simp [hd]
          · simp [hc]
        · exact hs0
    · exact ih s (by rw [hss]; exact List.mem_cons_of_mem _ hs2)
  | case4 =>
    intro s hs
    rw [splitDS.eq_3] at hs
    rcases List.mem_cons.mp hs with rfl | hs2
    · rfl
    · cases hs2

theorem splitDS_append_sep : ∀ s1 t : Str, hasPair '.' ' ' s1 = false →
    splitDS (s1 ++ '.' :: ' ' :: t) = s1 :: splitDS t := by
  intro s1
  induction s1 with
  | nil =>
    intro t h
    simp [splitDS.eq_1]
  | cons c s1 ih =>
    intro t h
    have hcond : ∀ r : List Char, c = '.' → s1 ++ '.' :: ' ' :: t = ' ' :: r → False := by
      intro r hc hr
      cases s1 with
      | nil =>
        simp only [List.nil_append] at hr
        injection hr with h1 h2
        exact absurd h1 (by decide)
      | cons d s1t =>
        simp only [List.cons_append] at hr
        injection hr with h1 h2
        subst hc
        subst h1
        simp [hasPair] at h
    rw [List.cons_append, splitDS.eq_2 c _ hcond, ih t (hasPair_of_cons _ _ _ _ h)]

theorem splitDS_of_pairFree : ∀ s : Str, hasPair '.' ' ' s = false → splitDS s = [s] := by
  intro s
  induction s using splitDS.induct with
  | case1 rest ih =>
    intro h
    simp [hasPair] at h
  | case2 c rest hcond hnil ih => exact absurd hnil (splitDS_ne_nil rest)
  | case3 c rest hcond s0 ss hss ih =>
    intro h
    rw [splitDS.eq_2 c rest hcond, ih (hasPair_of_cons _ _ _ _ h)]
  | case4 =>
    intro h
    rfl

theorem replDS_head (d : Char) (r2 : Str) :
    ∃ e X, replDS (d :: r2) = e :: X ∧ (e = d ∨ e = '.') := by
  cases r2 with
  | nil =>
    refine ⟨d, [], ?_, Or.inl rfl⟩
    rw [replDS.eq_2 d [] (by intro r h1 h2; cases h2)]
    rfl
  | cons d2 r3 =>
    by_cases hd : d = '।' ∧ d2 = ' '
    · obtain ⟨rfl, rfl⟩ := hd
      exact ⟨'.', ' ' :: replDS r3, by rw [replDS.eq_1], Or.inr rfl⟩
    · have hcond : ∀ r : List Char, d = '।' → d2 :: r3 = ' ' :: r → False := by
        intro r h1 h2
        injection h2 with h3 h4
        exact hd ⟨h1, h3⟩
      exact ⟨d, replDS (d2 :: r3), by rw [replDS.eq_2 d (d2 :: r3) hcond], Or.inl rfl⟩

theorem replDS_pairFree : ∀ t : Str, hasPair '।' ' ' (replDS t) = false := by
  intro t
  induction t using replDS.induct with
  | case1 rest ih =>
    rw [replDS.eq_1]
    rw [hasPair_cons_of_ne _ _ _ (by decide), hasPair_cons_of_ne _ _ _ (by decide)]
    exact ih
  | case2 c rest hcond ih =>
    rw [replDS.eq_2 c rest hcond]
    by_cases hc : c = '।'
    · subst hc
      cases rest with
      | nil => rfl
      | cons d r2 =>
        obtain ⟨e, X, hE, hor⟩ := replDS_head d r2
        rw [hE]
        have he : e ≠ ' ' := by
          rcases hor with rfl | rfl
          · intro hsp
            exact hcond r2 rfl (by rw [hsp])
          · decide
        simp only [hasPair, Bool.or_eq_false_iff]
        refine ⟨by simp [he], ?_⟩
        rw [← hE]
        exact ih
    · rw [hasPair_cons_of_ne _ _ _ hc]
      exact ih
  | case3 => rfl

theorem replDS_id_of_pairFree : ∀ s : Str, hasPair '।' ' ' s = false → replDS s = s := by
  intro s
  induction s using replDS.induct with
  | case1 rest ih =>
    intro h
    simp [hasPair] at h
  | case2 c rest hcond ih =>
    intro h
    rw [replDS.eq_2 c rest hcond, ih (hasPair_of_cons _ _ _ _ h)]
  | case3 =>
    intro h
    rfl

theorem pyStrip_between (s : Str) : ∃ u v, s = u ++ pyStrip s ++ v := by
  refine ⟨s.takeWhile isWS, ((s.dropWhile isWS).reverse.takeWhile isWS).reverse, ?_⟩
  unfold pyStrip
  conv_lhs => rw [← List.takeWhile_append_dropWhile isWS s]
  rw [List.append_assoc]
  congr 1
  calc s.dropWhile isWS
      = ((s.dropWhile isWS).reverse).reverse := by rw [List.reverse_reverse]
    _ = (List.takeWhile isWS (s.dropWhile isWS).reverse ++
          List.dropWhile isWS (s.dropWhile isWS).reverse).reverse := by
        rw [List.takeWhile_append_dropWhile]
    _ = (List.dropWhile isWS (s.dropWhile isWS).reverse).reverse ++
          (List.takeWhile isWS (s.dropWhile isWS).reverse).reverse := by
        rw [List.reverse_append]

theorem sentencesOf_mem_pairFree (reply : Str) :
    ∀ s ∈ sentencesOf reply, hasPair '.' ' ' s = false ∧ hasPair '।' ' ' s = false := by
  intro s hs
  simp only [sentencesOf, List.mem_filter, List.mem_map] at hs
  obtain ⟨⟨s0, hs0mem, rfl⟩, hne⟩ := hs
  obtain ⟨u, v, huv⟩ := pyStrip_between s0
  constructor
  · exact hasPair_of_between '.' ' ' huv (splitDS_mem_pairFree (replDS reply) s0 hs0mem)
  · obtain ⟨u1, v1, h01⟩ := splitDS_mem_between (replDS reply) s0 hs0mem
    exact hasPair_of_between '।' ' ' huv
      (hasPair_of_between '।' ' ' h01 (replDS_pairFree reply))

theorem sentencesOf_cap_le_two (reply : Str) (h : (sentencesOf reply).length > 2) :
    capTwoSentences reply =
      List.intercalate ('.' :: ' ' :: []) ((sentencesOf reply).take 2) ++ ['.'] ∧
    (sentencesOf (capTwoSentences reply)).length ≤ 2 := by
  have hcap : capTwoSentences reply =
      List.intercalate ('.' :: ' ' :: []) ((sentencesOf reply).take 2) ++ ['.'] := by
    simp only [capTwoSentences]
    rw [if_pos h]
  refine ⟨hcap, ?_⟩
  rcases hss : sentencesOf reply with _ | ⟨s1, tl⟩
  · rw [hss] at h
    simp at h
  rcases tl with _ | ⟨s2, rest⟩
  · rw [hss] at h
    simp at h
  have htake : (sentencesOf reply).take 2 = [s1, s2] := by
    rw [hss]
    rfl
  have hform : List.intercalate ('.' :: ' ' :: []) [s1, s2] ++ ['.'] =
      s1 ++ '.' :: ' ' :: (s2 ++ ['.']) := by
    simp [List.intercalate]
  have hmem1 : s1 ∈ sentencesOf reply := by
    rw [hss]
    exact List.mem_cons_self _ _
  have hmem2 : s2 ∈ sentencesOf reply := by
    rw [hss]
    exact List.mem_cons_of_mem _ (List.mem_cons_self _ _)
  obtain ⟨h1d, h1r⟩ := sentencesOf_mem_pairFree reply s1 hmem1
  obtain ⟨h2d, h2r⟩ := sentencesOf_mem_pairFree reply s2 hmem2
  have hd1 : hasPair '।' ' ' ('.' :: ' ' :: (s2 ++ ['.'])) = false := by
    rw [hasPair_cons_of_ne _ _ _ (by decide), hasPair_cons_of_ne _ _ _ (by decide)]
    exact hasPair_append_cons '।' ' ' '.' (by decide) s2 [] h2r rfl
  have hout_r : hasPair '।' ' ' (s1 ++ '.' :: ' ' :: (s2 ++ ['.'])) = false :=
    hasPair_append_cons '।' ' ' '.' (by decide) s1 (' ' :: (s2 ++ ['.'])) h1r hd1
  have hsp : splitDS (s1 ++ '.' :: ' ' :: (s2 ++ ['.'])) = s1 :: splitDS (s2 ++ ['.']) :=
    splitDS_append_sep s1 _ h1d
  have hsp2 : splitDS (s2 ++ ['.']) = [s2 ++ ['.']] :=
    splitDS_of_pairFree _ (hasPair_append_cons '.' ' ' '.' (by decide) s2 [] h2d rfl)
  rw [hcap, htake, hform]
  simp only [sentencesOf]
  rw [replDS_id_of_pairFree _ hout_r, hsp, hsp2]
  exact le_trans (List.length_filter_le _ _) (by simp)

/-- C6: when an inference attempt succeeds with a reply whose sentence
segmentation (split on sentence-terminating punctuation, dot-space after
danda normalisation) has more than two sentences, the reply ask_phi returns
is the first two sentences rejoined with a trailing terminator, and the
returned reply has at most two sentences. -/
theorem ask_phi_two_sentence_cap (oracle : Str → Nat → Option Str)
    (message lang raw : Str) (hor : oracle message 0 = some raw)
    (hne : (pyStrip raw).isEmpty = false)
    (hlen : (sentencesOf (pyStrip raw)).length > 2) :
    (Phi.ask_phi true oracle message lang).1 =
      List.intercalate ('.' :: ' ' :: []) ((sentencesOf (pyStrip raw)).take 2) ++ ['.'] ∧
    (sentencesOf ((Phi.ask_phi true oracle message lang).1)).length ≤ 2 := by
  have hatt : Phi.phiAttempt oracle message 0 = some (capTwoSentences (pyStrip raw)) := by
    simp only [Phi.phiAttempt]
    rw [hor]
    simp [hne]
  have hreply : (Phi.ask_phi true oracle message lang).1 = capTwoSentences (pyStrip raw) := by
    have hstep : Phi.ask_phi true oracle message lang =
        Phi.askPhiLoop oracle message lang 0 Phi.MAX_RETRIES := rfl
    rw [hstep]
    simp only [Phi.MAX_RETRIES]
    simp only [Phi.askPhiLoop, hatt]
  obtain ⟨hcap, hle⟩ := sentencesOf_cap_le_two (pyStrip raw) hlen
  exact ⟨by rw [hreply]; exact hcap, by rw [hreply]; exact hle⟩

/-- Witness for C6: a four-sentence reply is truncated to its first two
sentences. -/
theorem ask_phi_two_sentence_cap_witness :
    (Phi.ask_phi true (fun _ _ => some ("  One. Two. Three. Four.  ".data))
        ("m".data) ("en".data)).1 = "One. Two.".data ∧
    (sentencesOf ((Phi.ask_phi true (fun _ _ => some ("  One. Two. Three. Four.  ".data))
        ("m".data) ("en".data)).1)).length ≤ 2 := by
  have h := ask_phi_two_sentence_cap (fun _ _ => some ("  One. Two. Three. Four.  ".data))
    ("m".data) ("en".data) ("  One. Two. Three. Four.  ".data) rfl (by decide) (by decide)
  refine ⟨?_, h.2⟩
  rw [h.1]
  rfl
